import Mathlib

/-!
Verification of the AXA form-extraction engine (axa_extractor).

The Python source is shallowly embedded: dictionaries become association
lists that preserve insertion order (as Python dicts do), floats become
rationals, optional strings become Option String, and regular-expression
full matches become decidable character-list predicates whose language is
provably identical to the pattern used in the source. Strings are handled
through their underlying character lists so that every definition is
executable and kernel-decidable.
-/

/-- A Python dict value of the kinds stored in doc level metadata
(strings, numbers, booleans). -/
inductive MetaV where
  | s : String → MetaV
  | q : ℚ → MetaV
  | n : Nat → MetaV
  | b : Bool → MetaV
  deriving DecidableEq, Repr

/-- fields.FieldValue: one named field datum. The Python meta dict only
ever holds string values in the source, so it is a string map here. -/
structure FieldValue where
  name : String
  value : Option String
  confidence : ℚ
  source : String := "text"
  meta : List (String × String) := []
  deriving DecidableEq, Repr

/-- Lookup in an insertion-ordered association list, as Python dict
indexing / dict.get: the first entry with the key. -/
def dictGet {α : Type} (m : List (String × α)) (k : String) : Option α :=
  (m.find? (fun p => p.1 == k)).map Prod.snd

/-- Python dict assignment d[k] = v: replace the value at an existing key
in place, otherwise append the new binding at the end. -/
def dictSet {α : Type} (m : List (String × α)) (k : String) (v : α) : List (String × α) :=
  if (m.find? (fun p => p.1 == k)).isSome then
    m.map (fun p => if p.1 == k then (k, v) else p)
  else
    m ++ [(k, v)]

/-- Python dict.update: fold the right dict into the left, binding by
binding. -/
def dictUpdate {α : Type} (a b : List (String × α)) : List (String × α) :=
  b.foldl (fun m p => dictSet m p.1 p.2) a

/-- Python truthiness of an Optional[str]: None and the empty string are
falsy. -/
def pyTruthyOpt : Option String → Bool
  | none => false
  | some s => s ≠ ""

/-- fields.ExtractionResult: one document's field set from one run. -/
structure ExtractionResult where
  fields : List (String × FieldValue)
  text_digest : Option String := none
  doc_meta : List (String × MetaV) := []
  deriving DecidableEq, Repr

/-- ExtractionResult.get. -/
def ExtractionResult.get (r : ExtractionResult) (k : String) : Option FieldValue :=
  dictGet r.fields k

/-- The body of the merge loop in ExtractionResult.merge_with, for one
binding of the other result: keep the existing entry unless the incoming
confidence is strictly higher; absent keys are inserted. -/
def mergeStep (merged : List (String × FieldValue)) (p : String × FieldValue) :
    List (String × FieldValue) :=
  match dictGet merged p.1 with
  | none => dictSet merged p.1 p.2
  | some cur => if cur.confidence < p.2.confidence then dictSet merged p.1 p.2 else merged

/-- ExtractionResult.merge_with: per-field confidence-max merge, Python
or-choice of the digests, dict.update of the metadata. -/
def ExtractionResult.merge_with (a b : ExtractionResult) : ExtractionResult :=
  { fields := b.fields.foldl mergeStep a.fields
    text_digest := if pyTruthyOpt a.text_digest then a.text_digest else b.text_digest
    doc_meta := dictUpdate a.doc_meta b.doc_meta }

/-- Clamp a confidence to the unit interval, as the aggregation loop in
fields.aggregate_confidence does with max(0.0, min(1.0, c)). -/
def clamp01 (x : ℚ) : ℚ := max 0 (min 1 x)

/-- fields.aggregate_confidence: mean of the clamped confidences of the
fields whose value is present; 0 when the dict is empty or nothing is
filled. The running total and count mirror the source loop. -/
def aggregate_confidence (r : ExtractionResult) : ℚ :=
  if r.fields.isEmpty then 0
  else
    let acc := r.fields.foldl
      (fun (acc : ℚ × ℕ) p =>
        if p.2.value = none then acc else (acc.1 + clamp01 p.2.confidence, acc.2 + 1))
      ((0 : ℚ), (0 : ℕ))
    if acc.2 = 0 then 0 else acc.1 / (acc.2 : ℚ)

/-! ## String primitives

Python string operations used by the scoring code, written over the
character list of a String so they compute in the kernel. -/

/-- Python str.strip on a character list: drop whitespace at both ends. -/
def pyTrimChars (cs : List Char) : List Char :=
  ((cs.dropWhile Char.isWhitespace).reverse.dropWhile Char.isWhitespace).reverse

/-- Python str.strip. -/
def pyStrip (s : String) : String := ⟨pyTrimChars s.data⟩

/-- Worker for whitespace tokenization, carrying the reversed current
token. -/
def pyTokensAux : List Char → List Char → List (List Char)
  | [], acc => if acc.isEmpty then [] else [acc.reverse]
  | c :: cs, acc =>
      if c.isWhitespace then
        if acc.isEmpty then pyTokensAux cs [] else acc.reverse :: pyTokensAux cs []
      else pyTokensAux cs (c :: acc)

/-- Python str.split with no separator: the maximal runs of
non-whitespace characters, with no empty tokens. -/
def pySplitWs (s : String) : List String := (pyTokensAux s.data []).map (fun t => ⟨t⟩)

/-- Python str.lower, character by character. -/
def pyLower (s : String) : String := ⟨s.data.map Char.toLower⟩

/-- Does the needle occur as a contiguous subsequence of the haystack?
Models the Python substring test (needle in hay). -/
def charsStartWith : List Char → List Char → Bool
  | [], _ => true
  | _ :: _, [] => false
  | a :: as, b :: bs => a == b && charsStartWith as bs

/-- Substring search by scanning every suffix of the haystack. -/
def charsContain (needle : List Char) : List Char → Bool
  | [] => charsStartWith needle []
  | c :: cs => charsStartWith needle (c :: cs) || charsContain needle cs

/-- Python needle in hay on strings. -/
def strContains (hay needle : String) : Bool := charsContain needle.data hay.data

/-! ## Regular-expression languages used by TextPDFExtractor._score

Each re.fullmatch pattern in the score function is replaced by a
decidable predicate recognizing exactly the same language. The
equivalences are noted at each definition. -/

/-- The character class of the policy number pattern: A-Z, 0-9, hyphen,
slash. -/
def policyChar (c : Char) : Bool := c.isUpper || c.isDigit || c == '-' || c == '/'

/-- re.fullmatch of six or more policy characters: at least six
characters and nothing outside the class. -/
def policyNumberFormat (v : String) : Bool :=
  6 ≤ v.data.length && v.data.all policyChar

/-- The date separator class: hyphen, slash, dot. -/
def sepChar (c : Char) : Bool := c == '-' || c == '/' || c == '.'

/-- Decompose a character list as digits, separator, digits, separator,
digits, returning the three digit-run lengths. Because the separator
class contains no digit, a full match of either date pattern forces
exactly this shape, and the run lengths determine which repetition
bounds can be met. -/
def dateParts (cs : List Char) : Option (ℕ × ℕ × ℕ) :=
  let a := cs.takeWhile Char.isDigit
  match cs.dropWhile Char.isDigit with
  | [] => none
  | s1 :: r2 =>
    if sepChar s1 then
      let b := r2.takeWhile Char.isDigit
      match r2.dropWhile Char.isDigit with
      | [] => none
      | s2 :: r4 =>
        if sepChar s2 then
          let c := r4.takeWhile Char.isDigit
          if (r4.dropWhile Char.isDigit).isEmpty then some (a.length, b.length, c.length)
          else none
        else none
    else none

/-- re.fullmatch of the two date patterns of the score function: four
digit year first with 1-2 digit month and day, or 1-2 digit day and
month with a 2-4 digit year last. -/
def dateFormat (v : String) : Bool :=
  match dateParts v.data with
  | some (a, b, c) =>
      (a == 4 && 1 ≤ b && b ≤ 2 && 1 ≤ c && c ≤ 2) ||
      (1 ≤ a && a ≤ 2 && 1 ≤ b && b ≤ 2 && 2 ≤ c && c ≤ 4)
  | none => false

/-- The amount body class: digits, comma, dot. -/
def amountChar (c : Char) : Bool := c.isDigit || c == ',' || c == '.'

/-- The currency symbol class of the amount pattern. -/
def currencyChar (c : Char) : Bool := c == '$' || c == '€' || c == '£'

/-- re.fullmatch of the claim amount pattern: optional currency symbol,
optional single whitespace, then one or more of digits, comma, dot with
an optional trailing two-decimal group. Since the optional decimal
group only uses characters of the body class, the language collapses to
a nonempty body after the optional prefix. Neither prefix character is
in the body class, so stripping them greedily is equivalent. -/
def amountFormat (v : String) : Bool :=
  let cs0 := v.data
  let cs1 := match cs0 with
    | c :: rest => if currencyChar c then rest else cs0
    | [] => cs0
  let cs2 := match cs1 with
    | c :: rest => if c.isWhitespace then rest else cs1
    | [] => cs1
  !cs2.isEmpty && cs2.all amountChar

/-- The customer name test of the score function: at least two
whitespace-separated tokens and the first two tokens each at least two
characters long. -/
def nameFormat (v : String) : Bool :=
  let toks := pySplitWs v
  2 ≤ toks.length && (toks.take 2).all (fun t => 2 ≤ t.data.length)

/-- A regex word character as used by the word-boundary assertion:
alphanumeric or underscore. -/
def wordChar (c : Char) : Bool := c.isAlphanum || c == '_'

/-- The street keywords of the address score rule, in source order. -/
def streetWords : List String :=
  ["St", "Street", "Ave", "Avenue", "Rd", "Road", "Blvd", "Lane", "Ln",
   "Drive", "Dr", "Ct", "Court"]

/-- Case-insensitive match of a word at the head of a character list,
returning the remainder on success. -/
def ciMatch : List Char → List Char → Option (List Char)
  | [], rest => some rest
  | _ :: _, [] => none
  | w :: ws, c :: cs => if w.toLower == c.toLower then ciMatch ws cs else none

/-- Does any street keyword match at this position, followed by a word
boundary (end of text or a non-word character)? -/
def streetWordAt (cs : List Char) : Bool :=
  streetWords.any (fun w =>
    match ciMatch w.data cs with
    | some [] => true
    | some (c :: _) => !wordChar c
    | none => false)

/-- re.search of the street keyword alternation with a trailing word
boundary, case-insensitive: some position admits some keyword. -/
def hasStreetWord : List Char → Bool
  | [] => false
  | c :: cs => streetWordAt (c :: cs) || hasStreetWord cs

/-- The address test of the score function: contains a digit and a
street keyword at a word boundary. -/
def addressFormat (v : String) : Bool :=
  v.data.any Char.isDigit && hasStreetWord v.data

/-- TextPDFExtractor._score: the field-specific heuristic confidence of
a candidate value. -/
def score (field : String) (value : String) : ℚ :=
  let v := pyStrip value
  if v = "" then 0
  else if field = "policy_number" then
    if policyNumberFormat v then 9/10 else 6/10
  else if field = "date_of_incident" ∨ field = "submission_date" then
    if dateFormat v then 85/100 else 1/2
  else if field = "claim_amount" then
    if amountFormat v then 85/100 else 1/2
  else if field = "customer_name" then
    if nameFormat v then 8/10 else 1/2
  else if field = "address" then
    if addressFormat v then 75/100 else 1/2
  else if field = "agent" ∨ field = "claim_type" ∨ field = "form_type" then
    if 3 ≤ v.data.length then 6/10 else 4/10
  else 1/2

/-- Specification-side description of the per-field merge winner, written
from the spec wording of 4.4: a field in only one input is kept; a field
in both keeps the strictly higher confidence, the left (first seen) one
on exact ties. Compared against merge_with in the theorems below. -/
def specFieldWinner (u v : Option FieldValue) : Option FieldValue :=
  match u, v with
  | none, ob => ob
  | some x, none => some x
  | some x, some y => some (if x.confidence < y.confidence then y else x)

/-! ## OCRPDFExtractor.extract, per-field loop

The regex engine applied to the OCR text is outside the embedding (text
acquisition is an external collaborator); the loop over one field takes
the per-pattern match outcomes in pattern order, where some v is a match
whose first capture group is v and none is a non-matching pattern. -/

/-- The inner loop of OCRPDFExtractor.extract for one field: each match
overwrites the value with its stripped capture and raises the running
confidence to at least 0.6. -/
def ocrFieldScan : List (Option String) → Option String × ℚ → Option String × ℚ
  | [], acc => acc
  | none :: ms, acc => ocrFieldScan ms acc
  | some v :: ms, acc => ocrFieldScan ms (some (pyStrip v), max acc.2 (6/10))

/-- The FieldValue emitted by OCRPDFExtractor.extract for one field:
loop from value None and confidence 0.0, then scale the confidence by
0.9 and tag the OCR source. -/
def ocrField (name : String) (ms : List (Option String)) : FieldValue :=
  let acc := ocrFieldScan ms (none, 0)
  { name := name, value := acc.1, confidence := acc.2 * (9/10), source := "ocr" }

/-! ## TextPDFExtractor, key-value scan override -/

/-- The candidate confidence computed in TextPDFExtractor._kv_scan: the
field-specific heuristic score plus the flat 0.1 label bonus, clamped to
at most 1.0. -/
def kvCandidateConf (field value : String) : ℚ := min 1 (score field value + 1/10)

/-- The FieldValue built when a key-value candidate overrides a field in
pass 2 of TextPDFExtractor.extract. -/
def mkKvField (k : String) (val : Option String) (conf : ℚ) : FieldValue :=
  { name := k, value := val, confidence := conf, source := "text", meta := [("method", "kv")] }

/-- The body of the pass-2 loop of TextPDFExtractor.extract for one
key-value candidate: the candidate replaces the pattern-pass entry when
its value is truthy and the entry is missing, valueless, or of strictly
lower confidence. -/
def applyKvOverride (fields : List (String × FieldValue)) (k : String)
    (val : Option String) (conf : ℚ) : List (String × FieldValue) :=
  match dictGet fields k with
  | none =>
      if pyTruthyOpt val then dictSet fields k (mkKvField k val conf) else fields
  | some cur =>
      if pyTruthyOpt val && (cur.value == none || decide (cur.confidence < conf)) then
        dictSet fields k (mkKvField k val conf)
      else fields

/-! ## ExtractionPipeline.run

An extractor in the model is its class name together with the outcome of
running it on the given bytes: can_process may raise or say no, and
extract may raise or return a result. The pipeline body is then a fold
over the registered extractors. -/

/-- Outcome of one registered extractor on the input document. -/
inductive ExtractorStep where
  | canProcessRaises : String → ExtractorStep
  | notApplicable : ExtractorStep
  | extractRaises : String → ExtractorStep
  | extracts : ExtractionResult → ExtractorStep
  deriving DecidableEq, Repr

/-- The empty result recorded when an extractor raises: the error
message and the extractor class name in doc_meta. -/
def errResult (name msg : String) : ExtractionResult :=
  { fields := [], doc_meta := [("error", MetaV.s msg), ("extractor", MetaV.s name)] }

/-- One iteration of the extractor loop in ExtractionPipeline.run. -/
def runStep (results : List ExtractionResult) (e : String × ExtractorStep) :
    List ExtractionResult :=
  match e.2 with
  | ExtractorStep.canProcessRaises msg => results ++ [errResult e.1 msg]
  | ExtractorStep.notApplicable => results
  | ExtractorStep.extractRaises msg => results ++ [errResult e.1 msg]
  | ExtractorStep.extracts r => results ++ [r]

/-- The per-extractor result list accumulated by ExtractionPipeline.run. -/
def gatherResults (extractors : List (String × ExtractorStep)) : List ExtractionResult :=
  extractors.foldl runStep []

/-- The plain record returned by ExtractionPipeline.run (and by the
auto-selection layer): fields, aggregate confidence, metadata. -/
structure PyResult where
  fields : List (String × FieldValue)
  confidence : ℚ
  meta : List (String × MetaV)
  deriving DecidableEq, Repr

/-- ExtractionPipeline.run: collect per-extractor results, fall back to
an explicit error record when none, else merge left to right and
aggregate. -/
def pipeline_run (extractors : List (String × ExtractorStep)) : PyResult :=
  match gatherResults extractors with
  | [] => { fields := [], confidence := 0, meta := [("error", MetaV.s "No extractor available")] }
  | r :: rest =>
      let merged := rest.foldl ExtractionResult.merge_with r
      { fields := merged.fields
        confidence := aggregate_confidence merged
        meta := merged.doc_meta }

/-! ## Config auto-selection (scripts/cli.py and app_streamlit.py) -/

/-- score_result: composite base score and the filled and total field
counts. A field counts as filled when its value, defaulted to the empty
string, strips to something nonempty. -/
def score_result (fields : List (String × FieldValue)) (confidence : ℚ) : ℚ × ℕ × ℕ :=
  let total := fields.length
  let filled := (fields.filter (fun p => pyStrip (p.2.value.getD "") ≠ "")).length
  let fillRatio : ℚ := if total = 0 then 0 else (filled : ℚ) / (total : ℚ)
  (confidence + (2/10) * fillRatio, filled, total)

/-- The fixed keyword lists per form group in filename_hint_boost. -/
def hintGroups : List (String × List String) :=
  [("claim", ["claim", "fnol", "loss", "notice", "property-loss"]),
   ("policy", ["policy", "schedule", "certificate"]),
   ("customer", ["customer", "info", "information", "details"])]

/-- The group classification of a lowercased config label in
filename_hint_boost. -/
def labelGroup (label : String) : Option String :=
  if strContains label "claim" then some "claim"
  else if strContains label "policy" then some "policy"
  else if strContains label "customer" || strContains label "info" then some "customer"
  else none

/-- filename_hint_boost: the boost and the matched keyword triggers. -/
def filename_hint_boost (filename config_label : String) : ℚ × List String :=
  let fname := pyLower filename
  let label := pyLower config_label
  match labelGroup label with
  | none => ((0 : ℚ), [])
  | some g =>
      let kws := (dictGet hintGroups g).getD []
      let triggers := kws.filter (fun kw => strContains fname kw)
      if triggers.isEmpty then ((0 : ℚ), [])
      else (min (1/10) (5/100 + (25/1000) * ((triggers.length - 1 : ℕ) : ℚ)), triggers)

/-- The composite candidate score used by both front ends:
score_result plus the filename hint boost. -/
def compositeScore (fields : List (String × FieldValue)) (confidence : ℚ)
    (filename config_label : String) : ℚ :=
  (score_result fields confidence).1 + (filename_hint_boost filename config_label).1

/-- One candidate row built by run_auto_configs. -/
structure Candidate where
  fn : String
  result : PyResult
  sc : ℚ
  filled : ℕ
  total : ℕ
  reason : String
  deriving DecidableEq, Repr

/-- Python round(x, 3). Python rounds the nearest double, ties to even;
the model rounds the exact rational, ties up, which agrees except on
exact midpoints. Only carried in display metadata. -/
def pyRound3 (x : ℚ) : ℚ := (round (x * 1000) : ℤ) / 1000

/-- The boost explanation string built by run_auto_configs. The numeric
formatting of the float is display-only and modelled by toString. -/
def reasonStr (boost : ℚ) (triggers : List String) : String :=
  "+" ++ toString boost ++ " filename match: " ++ String.intercalate ", " triggers

/-- app_streamlit.run_auto_configs, with the per-config pipeline runs
supplied as data (each pair is the config file name and the result of
pipeline.run under that config; the leaderboard display list is out of
scope). An empty config set yields the explicit error record; otherwise
the first candidate with maximal composite score wins, as Python max
does, and the selection metadata is merged into its result. -/
def run_auto_configs (runs : List (String × PyResult)) (filename : String) : PyResult :=
  let candidates := runs.map (fun p =>
    let sr := score_result p.2.fields p.2.confidence
    let bt := filename_hint_boost filename p.1
    { fn := p.1, result := p.2, sc := sr.1 + bt.1, filled := sr.2.1, total := sr.2.2
      reason := if bt.2.isEmpty then "" else reasonStr bt.1 bt.2 : Candidate })
  match candidates with
  | [] => { fields := [], confidence := 0, meta := [("error", MetaV.s "No configs found")] }
  | c :: cs =>
      let best := cs.foldl (fun b x => if b.sc < x.sc then x else b) c
      let bestMeta : List (String × MetaV) :=
        [("selected_config", MetaV.s best.fn), ("score", MetaV.q (pyRound3 best.sc)),
         ("filled", MetaV.n best.filled), ("total", MetaV.n best.total),
         ("reason", MetaV.s best.reason)]
      { best.result with meta := dictUpdate best.result.meta bestMeta }

/-- Specification-side list of filled fields: those with a present
value. Used to state the aggregate confidence claim. -/
def filledFields (r : ExtractionResult) : List (String × FieldValue) :=
  r.fields.filter (fun p => p.2.value.isSome)

/-! ## Dictionary lemmas -/

theorem dictGet_cons {α : Type} (k0 : String) (v : α) (m : List (String × α)) (k : String) :
    dictGet ((k0, v) :: m) k = if k0 = k then some v else dictGet m k := by
  by_cases h : k0 = k
  · simp [dictGet, List.find?, h]
  · have hb : (k0 == k) = false := beq_eq_false_iff_ne.mpr h
    simp [dictGet, List.find?, hb, h]

theorem dictGet_eq_none_of_not_mem {α : Type} (m : List (String × α)) (k : String)
    (h : k ∉ m.map Prod.fst) : dictGet m k = none := by
  induction m with
  | nil => rfl
  | cons p m ih =>
      rcases p with ⟨k0, v⟩
      simp only [List.map_cons, List.mem_cons] at h
      push_neg at h
      rw [dictGet_cons, if_neg (fun he => h.1 he.symm)]
      exact ih h.2

theorem dictGet_append {α : Type} (m1 m2 : List (String × α)) (k : String) :
    dictGet (m1 ++ m2) k =
      match dictGet m1 k with
      | some v => some v
      | none => dictGet m2 k := by
  induction m1 with
  | nil => rfl
  | cons p m ih =>
      rcases p with ⟨k0, v⟩
      rw [List.cons_append, dictGet_cons, dictGet_cons]
      by_cases h : k0 = k
      · simp [h]
      · simp [h, ih]

theorem dictGet_setMap_self {α : Type} (m : List (String × α)) (k : String) (v : α) :
    dictGet (m.map (fun p => if p.1 == k then (k, v) else p)) k
      = (dictGet m k).map (fun _ => v) := by
  induction m with
  | nil => rfl
  | cons p m ih =>
      rcases p with ⟨k0, u⟩
      by_cases h : k0 = k
      · simp [h, dictGet_cons]
      · simp only [List.map_cons]
        rw [if_neg (by simpa using h)]
        rw [dictGet_cons, dictGet_cons, if_neg h, if_neg h, ih]

theorem dictGet_setMap_ne {α : Type} (m : List (String × α)) (k : String) (v : α)
    (k' : String) (h : k' ≠ k) :
    dictGet (m.map (fun p => if p.1 == k then (k, v) else p)) k' = dictGet m k' := by
  induction m with
  | nil => rfl
  | cons p m ih =>
      rcases p with ⟨k0, u⟩
      by_cases h0 : k0 = k
      · subst h0
        simp only [List.map_cons, beq_self_eq_true, if_true]
        rw [dictGet_cons, dictGet_cons, if_neg (fun he => h he.symm),
          if_neg (fun he => h he.symm), ih]
      · have hb : (k0 == k) = false := beq_eq_false_iff_ne.mpr h0
        simp only [List.map_cons, hb, Bool.false_eq_true, if_false]
        rw [dictGet_cons, dictGet_cons, ih]

theorem dictGet_dictSet_self {α : Type} (m : List (String × α)) (k : String) (v : α) :
    dictGet (dictSet m k v) k = some v := by
  unfold dictSet
  by_cases h : (m.find? (fun p => p.1 == k)).isSome
  · rw [if_pos h, dictGet_setMap_self]
    rcases Option.isSome_iff_exists.mp h with ⟨p, hp⟩
    simp [dictGet, hp]
  · rw [if_neg h, dictGet_append]
    have hn : dictGet m k = none := by
      simp only [dictGet]
      rcases Option.not_isSome_iff_eq_none.mp h with h2
      simp [h2]
    simp [hn, dictGet_cons]

theorem dictGet_dictSet_ne {α : Type} (m : List (String × α)) (k : String) (v : α)
    (k' : String) (h : k' ≠ k) : dictGet (dictSet m k v) k' = dictGet m k' := by
  unfold dictSet
  by_cases hs : (m.find? (fun p => p.1 == k)).isSome
  · rw [if_pos hs, dictGet_setMap_ne _ _ _ _ h]
  · rw [if_neg hs, dictGet_append]
    cases hg : dictGet m k' with
    | some u => simp [hg]
    | none => simp [hg, dictGet_cons, Ne.symm h, dictGet]

/-! ## Merge lemmas -/

theorem specFieldWinner_none_right (u : Option FieldValue) :
    specFieldWinner u none = u := by
  cases u <;> rfl

theorem mergeStep_get_self (m : List (String × FieldValue)) (k : String) (v : FieldValue) :
    dictGet (mergeStep m (k, v)) k = specFieldWinner (dictGet m k) (some v) := by
  unfold mergeStep
  cases h : dictGet m k with
  | none => simp [h, specFieldWinner, dictGet_dictSet_self]
  | some cur =>
      simp only [h, specFieldWinner]
      by_cases hc : cur.confidence < v.confidence
      · rw [if_pos hc, if_pos hc, dictGet_dictSet_self]
      · rw [if_neg hc, if_neg hc, h]

theorem mergeStep_get_ne (m : List (String × FieldValue)) (p : String × FieldValue)
    (k : String) (h : k ≠ p.1) : dictGet (mergeStep m p) k = dictGet m k := by
  unfold mergeStep
  cases hg : dictGet m p.1 with
  | none => exact dictGet_dictSet_ne _ _ _ _ h
  | some cur =>
      show dictGet (if cur.confidence < p.2.confidence then dictSet m p.1 p.2 else m) k
        = dictGet m k
      by_cases hc : cur.confidence < p.2.confidence
      · rw [if_pos hc]; exact dictGet_dictSet_ne _ _ _ _ h
      · rw [if_neg hc]

theorem foldl_mergeStep_get (b : List (String × FieldValue)) :
    ∀ (a : List (String × FieldValue)), (b.map Prod.fst).Nodup → ∀ k : String,
      dictGet (b.foldl mergeStep a) k = specFieldWinner (dictGet a k) (dictGet b k) := by
  induction b with
  | nil =>
      intro a _ k
      simp only [List.foldl_nil]
      rw [show dictGet ([] : List (String × FieldValue)) k = none from rfl,
        specFieldWinner_none_right]
  | cons p b ih =>
      intro a hb k
      rcases p with ⟨k0, v⟩
      simp only [List.map_cons, List.nodup_cons] at hb
      simp only [List.foldl_cons]
      by_cases hk : k = k0
      · subst hk
        rw [ih _ hb.2 k, dictGet_eq_none_of_not_mem _ _ hb.1,
          specFieldWinner_none_right, mergeStep_get_self, dictGet_cons, if_pos rfl]
      · rw [ih _ hb.2 k, mergeStep_get_ne _ _ _ hk, dictGet_cons,
          if_neg (fun he => hk he.symm)]

/-- The per-field content of merge_with: shared helper for the merge
claims. -/
theorem merge_with_get (a b : ExtractionResult)
    (hb : (b.fields.map Prod.fst).Nodup) (k : String) :
    (a.merge_with b).get k = specFieldWinner (a.get k) (b.get k) :=
  foldl_mergeStep_get b.fields a.fields hb k

/-! ## Aggregation lemmas -/

theorem aggregate_foldl_eq (l : List (String × FieldValue)) :
    ∀ (t : ℚ) (n : ℕ),
      l.foldl
        (fun (acc : ℚ × ℕ) p =>
          if p.2.value = none then acc else (acc.1 + clamp01 p.2.confidence, acc.2 + 1))
        (t, n)
      = (t + ((l.filter (fun p => p.2.value.isSome)).map
            (fun p => clamp01 p.2.confidence)).sum,
         n + (l.filter (fun p => p.2.value.isSome)).length) := by
  induction l with
  | nil => intro t n; simp
  | cons p l ih =>
      intro t n
      cases hv : p.2.value with
      | none =>
          simp only [List.foldl_cons, if_pos hv, List.filter_cons, hv, Option.isSome_none,
            Bool.false_eq_true, if_false]
          exact ih t n
      | some s =>
          have hne : ¬ p.2.value = none := by simp [hv]
          simp only [List.foldl_cons, if_neg hne, List.filter_cons, hv, Option.isSome_some,
            if_true]
          rw [ih]
          simp [List.sum_cons]
          constructor
          · ring
          · omega

/-! ## OCR scan lemmas -/

theorem ocrFieldScan_conf (ms : List (Option String)) :
    ∀ acc : Option String × ℚ,
      (ocrFieldScan ms acc).2
        = if ms.any Option.isSome then max acc.2 (6/10) else acc.2 := by
  induction ms with
  | nil => intro acc; simp [ocrFieldScan]
  | cons m ms ih =>
      intro acc
      cases m with
      | none => simpa [ocrFieldScan] using ih acc
      | some v =>
          simp only [ocrFieldScan, List.any_cons, Option.isSome_some, Bool.true_or, if_true]
          rw [ih]
          by_cases h : ms.any Option.isSome
          · simp [h, max_assoc]
          · simp [h]

/-! ## Pipeline fold lemmas -/

theorem runStep_eq_append (acc : List ExtractionResult) (e : String × ExtractorStep) :
    runStep acc e = acc ++ runStep [] e := by
  rcases e with ⟨n, st⟩
  cases st <;> simp [runStep]

theorem foldl_runStep_eq (es : List (String × ExtractorStep)) :
    ∀ acc : List ExtractionResult, es.foldl runStep acc = acc ++ gatherResults es := by
  induction es with
  | nil => intro acc; simp [gatherResults]
  | cons e es ih =>
      intro acc
      simp only [gatherResults, List.foldl_cons]
      rw [ih, ih (runStep [] e), runStep_eq_append acc e, List.append_assoc]

/-! ## Claim theorems -/

/-- Claim C1, amended. Merging a result with itself leaves every field
unchanged, and for every field name the winner chosen by merging A with
B equals the winner chosen by merging B with A provided the two stored
FieldValues do not tie in confidence while differing (on an exact
confidence tie each order keeps the receiver entry, so commutativity
needs the tied entries to coincide). -/
theorem merge_comm_idem (a b : ExtractionResult)
    (ha : (a.fields.map Prod.fst).Nodup) (hb : (b.fields.map Prod.fst).Nodup)
    (k : String)
    (hk : ∀ u v : FieldValue, a.get k = some u → b.get k = some v →
      u.confidence = v.confidence → u = v) :
    (a.merge_with b).get k = (b.merge_with a).get k ∧
    (a.merge_with a).get k = a.get k := by
  constructor
  · rw [merge_with_get a b hb k, merge_with_get b a ha k]
    cases hu : a.get k with
    | none => cases hv : b.get k <;> simp [specFieldWinner]
    | some u =>
        cases hv : b.get k with
        | none => simp [specFieldWinner]
        | some v =>
            simp only [specFieldWinner]
            rcases lt_trichotomy u.confidence v.confidence with h | h | h
            · rw [if_pos h, if_neg (not_lt.mpr (le_of_lt h))]
            · rw [if_neg (by rw [h]; exact lt_irrefl _),
                if_neg (by rw [h]; exact lt_irrefl _)]
              exact congrArg some (hk u v hu hv h)
            · rw [if_neg (not_lt.mpr (le_of_lt h)), if_pos h]
  · rw [merge_with_get a a ha k]
    cases hu : a.get k with
    | none => simp [specFieldWinner]
    | some u => simp [specFieldWinner]

/-- Witness for C1 at two one-field results with distinct confidences. -/
theorem merge_comm_idem_witness :
    ((⟨[("policy_number", ⟨"policy_number", some "AAA", 1, "text", []⟩)], none, []⟩ :
        ExtractionResult).merge_with
      ⟨[("policy_number", ⟨"policy_number", some "BBB", 0, "ocr", []⟩)], none, []⟩).get
        "policy_number"
      = ((⟨[("policy_number", ⟨"policy_number", some "BBB", 0, "ocr", []⟩)], none, []⟩ :
        ExtractionResult).merge_with
      ⟨[("policy_number", ⟨"policy_number", some "AAA", 1, "text", []⟩)], none, []⟩).get
        "policy_number" ∧
    ((⟨[("policy_number", ⟨"policy_number", some "AAA", 1, "text", []⟩)], none, []⟩ :
        ExtractionResult).merge_with
      ⟨[("policy_number", ⟨"policy_number", some "AAA", 1, "text", []⟩)], none, []⟩).get
        "policy_number"
      = (⟨[("policy_number", ⟨"policy_number", some "AAA", 1, "text", []⟩)], none, []⟩ :
        ExtractionResult).get "policy_number" := by
  refine merge_comm_idem _ _ (by decide) (by decide) "policy_number" ?_
  intro u v hu hv hc
  have h1 : (some (⟨"policy_number", some "AAA", 1, "text", []⟩ : FieldValue)) = some u := hu
  have h2 : (some (⟨"policy_number", some "BBB", 0, "ocr", []⟩ : FieldValue)) = some v := hv
  rw [← Option.some.inj h1, ← Option.some.inj h2] at hc
  exact absurd hc (by norm_num)

/-- Counterexample to C1 as stated: on an exact confidence tie the two
merge orders keep different FieldValues for the same field name. -/
theorem merge_comm_counterexample :
    ((⟨[("policy_number", ⟨"policy_number", some "x", 1/2, "text", []⟩)], none, []⟩ :
        ExtractionResult).merge_with
      ⟨[("policy_number", ⟨"policy_number", some "y", 1/2, "ocr", []⟩)], none, []⟩).get
        "policy_number"
      ≠ ((⟨[("policy_number", ⟨"policy_number", some "y", 1/2, "ocr", []⟩)], none, []⟩ :
        ExtractionResult).merge_with
      ⟨[("policy_number", ⟨"policy_number", some "x", 1/2, "text", []⟩)], none, []⟩).get
        "policy_number" := by
  have h1 : ((⟨[("policy_number", ⟨"policy_number", some "x", 1/2, "text", []⟩)], none, []⟩ :
        ExtractionResult).merge_with
      ⟨[("policy_number", ⟨"policy_number", some "y", 1/2, "ocr", []⟩)], none, []⟩).get
        "policy_number" = some ⟨"policy_number", some "x", 1/2, "text", []⟩ := by
    rw [merge_with_get _ _ (by decide) _]
    show specFieldWinner (some ⟨"policy_number", some "x", 1/2, "text", []⟩)
      (some ⟨"policy_number", some "y", 1/2, "ocr", []⟩) = _
    simp only [specFieldWinner]
    rw [if_neg]
    norm_num
  have h2 : ((⟨[("policy_number", ⟨"policy_number", some "y", 1/2, "ocr", []⟩)], none, []⟩ :
        ExtractionResult).merge_with
      ⟨[("policy_number", ⟨"policy_number", some "x", 1/2, "text", []⟩)], none, []⟩).get
        "policy_number" = some ⟨"policy_number", some "y", 1/2, "ocr", []⟩ := by
    rw [merge_with_get _ _ (by decide) _]
    show specFieldWinner (some ⟨"policy_number", some "y", 1/2, "ocr", []⟩)
      (some ⟨"policy_number", some "x", 1/2, "text", []⟩) = _
    simp only [specFieldWinner]
    rw [if_neg]
    norm_num
  rw [h1, h2]
  intro h
  exact absurd (congrArg FieldValue.value (Option.some.inj h)) (by decide)

/-- Claim C3. For every field name the merged result keeps a field
present in only one input, keeps the strictly higher confidence entry
when present in both with the left input winning exact ties, and the
merged digest is the left digest when it is non-empty and the right
digest otherwise. -/
theorem merge_field_digest_spec (a b : ExtractionResult)
    (hb : (b.fields.map Prod.fst).Nodup) (k : String) :
    (a.merge_with b).get k = specFieldWinner (a.get k) (b.get k) ∧
    (pyTruthyOpt a.text_digest = true → (a.merge_with b).text_digest = a.text_digest) ∧
    (pyTruthyOpt a.text_digest = false → (a.merge_with b).text_digest = b.text_digest) := by
  refine ⟨merge_with_get a b hb k, ?_, ?_⟩
  · intro h; simp [ExtractionResult.merge_with, h]
  · intro h; simp [ExtractionResult.merge_with, h]

/-- Witness for C3: a field present only in the right input is kept and
the left non-empty digest survives. -/
theorem merge_field_digest_witness :
    ((⟨[], some "d", []⟩ : ExtractionResult).merge_with
        ⟨[("policy_number", ⟨"policy_number", some "v", 1, "text", []⟩)], some "e", []⟩).get
      "policy_number" = some ⟨"policy_number", some "v", 1, "text", []⟩ ∧
    ((⟨[], some "d", []⟩ : ExtractionResult).merge_with
        ⟨[("policy_number", ⟨"policy_number", some "v", 1, "text", []⟩)], some "e", []⟩).text_digest
      = some "d" := by
  have h := merge_field_digest_spec ⟨[], some "d", []⟩
    ⟨[("policy_number", ⟨"policy_number", some "v", 1, "text", []⟩)], some "e", []⟩
    (by decide) "policy_number"
  exact ⟨h.1.trans rfl, h.2.1 (by decide)⟩

/-- Claim C4. The aggregate confidence is 0 when no field has a present
value, and otherwise is the arithmetic mean of the clamped confidences
of exactly the fields with a present value. -/
theorem aggregate_confidence_spec (r : ExtractionResult) :
    (filledFields r = [] → aggregate_confidence r = 0) ∧
    (filledFields r ≠ [] →
      aggregate_confidence r
        = ((filledFields r).map (fun p => clamp01 p.2.confidence)).sum
            / ((filledFields r).length : ℚ)) := by
  constructor
  · intro h
    unfold aggregate_confidence
    by_cases he : r.fields.isEmpty
    · rw [if_pos he]
    · rw [if_neg he]
      simp only [aggregate_foldl_eq]
      have hl : (r.fields.filter (fun p => p.2.value.isSome)).length = 0 := by
        simp only [filledFields] at h
        simp [h]
      simp [hl]
  · intro h
    unfold aggregate_confidence
    have he : ¬ r.fields.isEmpty := by
      intro he
      apply h
      simp only [filledFields, List.isEmpty_iff.mp he, List.filter_nil]
    rw [if_neg he]
    simp only [aggregate_foldl_eq]
    have hl : (r.fields.filter (fun p => p.2.value.isSome)).length ≠ 0 := by
      simp only [filledFields] at h
      simpa [List.length_eq_zero] using h
    simp only [filledFields, Nat.zero_add, zero_add]
    rw [if_neg hl]

/-- Witness for C4: one filled field of confidence one half and one
valueless field give aggregate one half. -/
theorem aggregate_confidence_witness :
    aggregate_confidence
      ⟨[("a", ⟨"a", some "v", 1/2, "text", []⟩), ("b", ⟨"b", none, 1, "text", []⟩)],
        none, []⟩ = 1/2 := by
  have h := (aggregate_confidence_spec
    ⟨[("a", ⟨"a", some "v", 1/2, "text", []⟩), ("b", ⟨"b", none, 1, "text", []⟩)],
      none, []⟩).2 (by decide)
  rw [h]
  show (clamp01 (1/2) + 0) / ((1 : ℕ) : ℚ) = 1/2
  norm_num [clamp01]

/-- Evaluation of the score function on the customer name field. -/
theorem score_customer_eq (value : String) :
    score "customer_name" value
      = if pyStrip value = "" then 0
        else if nameFormat (pyStrip value) then 8/10 else 1/2 := by
  simp only [score]
  by_cases h : pyStrip value = ""
  · rw [if_pos h, if_pos h]
  · rw [if_neg h, if_neg h, if_neg (by decide), if_neg (by decide), if_neg (by decide),
      if_pos trivial]

/-- Claim C2, amended. The OCR strategy never consults the field
specific base scoring: every field with at least one matching pattern is
emitted with the flat confidence 0.6 times 0.9, that is 0.54, and a
field with no matching pattern is emitted with confidence 0. -/
theorem ocr_confidence_flat (name : String) (ms : List (Option String)) :
    (ocrField name ms).confidence = if ms.any Option.isSome then 27/50 else 0 := by
  simp only [ocrField]
  rw [ocrFieldScan_conf ms (none, 0)]
  by_cases h : ms.any Option.isSome
  · rw [if_pos h, if_pos h, max_eq_right (by norm_num : (0 : ℚ) ≤ 6/10)]
    norm_num
  · rw [if_neg h, if_neg h, zero_mul]

/-- Counterexample to C2 as stated: for a matched customer name whose
base score is 0.5, the emitted OCR confidence 0.54 differs from the
claimed min of the base score and 0.6 scaled by 0.9, which is 0.45. -/
theorem ocr_confidence_counterexample :
    (ocrField "customer_name" [some "X"]).confidence
      ≠ min (score "customer_name" "X") (6/10) * (9/10) := by
  have h1 : (ocrField "customer_name" [some "X"]).confidence = max 0 (6/10) * (9/10) := rfl
  have h2 : score "customer_name" "X" = 1/2 := rfl
  rw [h1, h2, max_eq_right (by norm_num : (0 : ℚ) ≤ 6/10),
    min_eq_left (by norm_num : (1/2 : ℚ) ≤ 6/10)]
  norm_num

/-- Claim C5. The heuristic scorer gives a policy number 0.9 exactly on
the six-or-more uppercase alphanumeric, hyphen, slash full match and 0.6
otherwise (0 on an empty trimmed value); gives a customer name 0.8
exactly when there are at least two whitespace tokens whose first two
have length at least two, and 0.5 otherwise for nonempty values; and
scores the three concrete values as the spec requires. -/
theorem score_field_rules (val : String) :
    (score "policy_number" val
      = if pyStrip val = "" then 0
        else if policyNumberFormat (pyStrip val) then 9/10 else 6/10) ∧
    (score "customer_name" val = 8/10 ↔ nameFormat (pyStrip val) = true) ∧
    (pyStrip val ≠ "" → nameFormat (pyStrip val) = false →
      score "customer_name" val = 1/2) ∧
    8/10 ≤ score "policy_number" "ABC-123456" ∧
    8/10 ≤ score "claim_amount" "$123.00" ∧
    1/2 < score "customer_name" "Jane Doe" := by
  refine ⟨?_, ?_, ?_, ?_, ?_, ?_⟩
  · simp only [score]
    by_cases h : pyStrip val = ""
    · rw [if_pos h, if_pos h]
    · rw [if_neg h, if_neg h, if_pos trivial]
  · rw [score_customer_eq]
    by_cases h : pyStrip val = ""
    · rw [if_pos h]
      have hnf : nameFormat (pyStrip val) = false := by rw [h]; rfl
      rw [hnf]
      constructor
      · intro hx; exact absurd hx (by norm_num)
      · intro hx; exact absurd hx (by simp)
    · rw [if_neg h]
      cases hnf : nameFormat (pyStrip val)
      · simp only [Bool.false_eq_true, if_false]
        constructor
        · intro hx; exact absurd hx (by norm_num)
        · intro hx; exact absurd hx (by simp)
      · simp
  · intro h1 h2
    rw [score_customer_eq, if_neg h1, h2]
    simp
  · have h : score "policy_number" "ABC-123456" = 9/10 := rfl
    rw [h]; norm_num
  · have h : score "claim_amount" "$123.00" = 85/100 := rfl
    rw [h]; norm_num
  · have h : score "customer_name" "Jane Doe" = 8/10 := rfl
    rw [h]; norm_num

/-- Witness for C5 at a one-token name: nonempty, not name shaped, so
the score is one half. -/
theorem score_field_rules_witness :
    score "customer_name" "Madonna" = 1/2 :=
  (score_field_rules "Madonna").2.2.1 (by decide) (by decide)

/-- Claim C6. The key-value candidate confidence is the base score plus
0.1, clamped at 1; and the candidate replaces the pattern-pass entry
exactly when its value is non-empty and the entry is missing, has no
value, or has strictly lower confidence — otherwise the fields are left
untouched. -/
theorem kv_override_spec (fields : List (String × FieldValue)) (k : String)
    (val : Option String) (conf : ℚ) (f v : String) :
    (score f v + 1/10 ≤ 1 → kvCandidateConf f v = score f v + 1/10) ∧
    (1 ≤ score f v + 1/10 → kvCandidateConf f v = 1) ∧
    ((pyTruthyOpt val = true ∧
        (dictGet fields k = none ∨
          ∃ cur, dictGet fields k = some cur ∧
            (cur.value = none ∨ cur.confidence < conf))) →
      dictGet (applyKvOverride fields k val conf) k = some (mkKvField k val conf)) ∧
    (¬ (pyTruthyOpt val = true ∧
        (dictGet fields k = none ∨
          ∃ cur, dictGet fields k = some cur ∧
            (cur.value = none ∨ cur.confidence < conf))) →
      applyKvOverride fields k val conf = fields) := by
  refine ⟨fun h => min_eq_right h, fun h => min_eq_left h, ?_, ?_⟩
  · rintro ⟨ht, hor⟩
    cases hg : dictGet fields k with
    | none =>
        simp only [applyKvOverride, hg, ht, if_true]
        exact dictGet_dictSet_self _ _ _
    | some cur =>
        rcases hor with hnone | ⟨cur2, hcur2, hcase⟩
        · exact absurd (hg ▸ hnone) (by simp)
        · have hcc : cur2 = cur := Option.some.inj ((hcur2.symm).trans hg)
          subst hcc
          have hb : (pyTruthyOpt val
              && (cur2.value == none || decide (cur2.confidence < conf))) = true := by
            rw [ht, Bool.true_and]
            rcases hcase with h1 | h1
            · simp [h1]
            · simp [h1]
          simp only [applyKvOverride, hg]
          rw [if_pos hb]
          exact dictGet_dictSet_self _ _ _
  · intro hn
    cases hg : dictGet fields k with
    | none =>
        simp only [applyKvOverride, hg]
        rw [if_neg]
        intro ht
        exact hn ⟨ht, Or.inl hg⟩
    | some cur =>
        simp only [applyKvOverride, hg]
        rw [if_neg]
        intro hb
        simp only [Bool.and_eq_true, Bool.or_eq_true, beq_iff_eq, decide_eq_true_eq] at hb
        exact hn ⟨hb.1, Or.inr ⟨cur, hg, hb.2⟩⟩

/-- Witness for C6: the clamp formula on a concrete name score and a
replacement of a valueless pattern-pass entry. -/
theorem kv_override_witness :
    kvCandidateConf "customer_name" "Jane Doe" = 8/10 + 1/10 ∧
    dictGet (applyKvOverride
        [("policy_number", ⟨"policy_number", none, 0, "text", []⟩)]
        "policy_number" (some "ABC-123456") (9/10 + 1/10)) "policy_number"
      = some (mkKvField "policy_number" (some "ABC-123456") (9/10 + 1/10)) := by
  constructor
  · have hs : score "customer_name" "Jane Doe" = 8/10 := rfl
    have h := (kv_override_spec [] "k" none 0 "customer_name" "Jane Doe").1
      (by rw [hs]; norm_num)
    rw [hs] at h
    exact h
  · exact (kv_override_spec _ _ _ _ "x" "y").2.2.1
      ⟨by decide, Or.inr ⟨_, rfl, Or.inl rfl⟩⟩

/-- filename_hint_boost when the label maps to no group. -/
theorem fhb_none (fname label : String) (hg : labelGroup (pyLower label) = none) :
    filename_hint_boost fname label = (0, []) := by
  simp [filename_hint_boost, hg]

/-- filename_hint_boost when the label maps to a group: filter the group
keywords against the lowercased filename. -/
theorem fhb_some (fname label g : String) (hg : labelGroup (pyLower label) = some g) :
    filename_hint_boost fname label
      = if (((dictGet hintGroups g).getD []).filter
            (fun kw => strContains (pyLower fname) kw)).isEmpty
        then ((0 : ℚ), [])
        else (min (1/10) (5/100 + (25/1000) *
              (((((dictGet hintGroups g).getD []).filter
                  (fun kw => strContains (pyLower fname) kw)).length - 1 : ℕ) : ℚ)),
            ((dictGet hintGroups g).getD []).filter
              (fun kw => strContains (pyLower fname) kw)) := by
  simp [filename_hint_boost, hg]

/-- Claim C7. An extractor whose extraction raises contributes exactly
the empty error result carrying its message and class name, in place,
while the results of the extractors before and after it are unaffected;
and whenever no extractor produced a result the pipeline returns the
explicit no-extractor-available record instead of failing. -/
theorem pipeline_error_containment (xs ys : List (String × ExtractorStep)) (n m : String) :
    gatherResults (xs ++ (n, ExtractorStep.extractRaises m) :: ys)
      = gatherResults xs ++ errResult n m :: gatherResults ys ∧
    (∀ es : List (String × ExtractorStep), gatherResults es = [] →
      pipeline_run es
        = { fields := [], confidence := 0,
            meta := [("error", MetaV.s "No extractor available")] }) := by
  constructor
  · show (xs ++ (n, ExtractorStep.extractRaises m) :: ys).foldl runStep [] = _
    rw [List.foldl_append, List.foldl_cons, foldl_runStep_eq ys,
      runStep_eq_append]
    show (gatherResults xs ++ [errResult n m]) ++ gatherResults ys = _
    simp
  · intro es h
    simp [pipeline_run, h]

/-- Witness for C7: the empty extractor list yields the explicit error
record, and a single raising extractor yields exactly its error result. -/
theorem pipeline_error_containment_witness :
    pipeline_run []
      = { fields := [], confidence := 0,
          meta := [("error", MetaV.s "No extractor available")] } ∧
    gatherResults ([] ++ ("TextPDFExtractor", ExtractorStep.extractRaises "boom") :: [])
      = gatherResults [] ++ errResult "TextPDFExtractor" "boom" :: gatherResults [] := by
  constructor
  · exact (pipeline_error_containment [] [] "X" "e").2 [] rfl
  · exact (pipeline_error_containment [] [] "TextPDFExtractor" "boom").1

/-- Claim C10. The failure containment equally covers the availability
check: an extractor whose can_process call raises contributes exactly
the empty error result carrying its message and class name, and the
extractors before and after it are processed unchanged. -/
theorem pipeline_canprocess_containment (xs ys : List (String × ExtractorStep))
    (n m : String) :
    gatherResults (xs ++ (n, ExtractorStep.canProcessRaises m) :: ys)
      = gatherResults xs ++ errResult n m :: gatherResults ys := by
  show (xs ++ (n, ExtractorStep.canProcessRaises m) :: ys).foldl runStep [] = _
  rw [List.foldl_append, List.foldl_cons, foldl_runStep_eq ys,
    runStep_eq_append]
  show (gatherResults xs ++ [errResult n m]) ++ gatherResults ys = _
  simp

/-- Claim C8. The composite score of a candidate is the aggregate
confidence plus 0.2 times the fill ratio (0 when there are no fields)
plus the filename hint boost, where the boost is 0 when no group
keyword matches the lowercased filename and otherwise
min(0.1, 0.05 + 0.025 * (matched count - 1)) over the matched group
keywords. -/
theorem composite_score_spec (fields : List (String × FieldValue)) (conf : ℚ)
    (fname label : String) :
    compositeScore fields conf fname label
      = conf + (2/10) *
          (if fields.length = 0 then (0 : ℚ)
           else ((fields.filter (fun p => pyStrip (p.2.value.getD "") ≠ "")).length : ℚ)
             / (fields.length : ℚ))
        + (filename_hint_boost fname label).1 ∧
    ((filename_hint_boost fname label).2 = [] → (filename_hint_boost fname label).1 = 0) ∧
    ((filename_hint_boost fname label).2 ≠ [] →
      (filename_hint_boost fname label).1
        = min (1/10) (5/100 + (25/1000) *
            ((((filename_hint_boost fname label).2.length - 1 : ℕ)) : ℚ))) ∧
    (∀ g, labelGroup (pyLower label) = some g →
      (filename_hint_boost fname label).2
        = ((dictGet hintGroups g).getD []).filter
            (fun kw => strContains (pyLower fname) kw)) ∧
    (labelGroup (pyLower label) = none → (filename_hint_boost fname label).2 = []) := by
  refine ⟨rfl, ?_, ?_, ?_, ?_⟩
  · intro h0
    cases hg : labelGroup (pyLower label) with
    | none => rw [fhb_none fname label hg]
    | some g =>
        rw [fhb_some fname label g hg] at h0 ⊢
        by_cases he : (((dictGet hintGroups g).getD []).filter
            (fun kw => strContains (pyLower fname) kw)).isEmpty
        · simp [he]
        · simp only [he, Bool.false_eq_true, if_false] at h0
          rw [h0] at he
          simp at he
  · intro h0
    cases hg : labelGroup (pyLower label) with
    | none =>
        rw [fhb_none fname label hg] at h0
        exact absurd rfl h0
    | some g =>
        rw [fhb_some fname label g hg] at h0 ⊢
        by_cases he : (((dictGet hintGroups g).getD []).filter
            (fun kw => strContains (pyLower fname) kw)).isEmpty
        · simp [he] at h0
        · simp [he]
  · intro g hgg
    rw [fhb_some fname label g hgg]
    by_cases he : (((dictGet hintGroups g).getD []).filter
        (fun kw => strContains (pyLower fname) kw)).isEmpty
    · simp only [he, if_true]
      exact (List.isEmpty_iff.mp he).symm
    · simp [he]
  · intro hg
    rw [fhb_none fname label hg]

/-- Witness for C8: the claim-form label against a property-loss
filename matches the two keywords loss and property-loss, giving the
boost formula at matched count two. -/
theorem composite_score_witness :
    (filename_hint_boost "property-loss-2024.pdf" "claim_form.json").2
      = ["loss", "property-loss"] ∧
    (filename_hint_boost "property-loss-2024.pdf" "claim_form.json").1
      = min (1/10) (5/100 + (25/1000) * ((2 - 1 : ℕ) : ℚ)) := by
  have h2 := (composite_score_spec [] 0 "property-loss-2024.pdf"
    "claim_form.json").2.2.2.1 "claim" (by decide)
  have hlist : (filename_hint_boost "property-loss-2024.pdf" "claim_form.json").2
      = ["loss", "property-loss"] := by
    rw [h2]; decide
  constructor
  · exact hlist
  · have h3 := (composite_score_spec [] 0 "property-loss-2024.pdf"
      "claim_form.json").2.2.1 (by rw [hlist]; decide)
    rw [h3, hlist]
    norm_num
  
/-- Claim C9. Auto selection over an empty config set returns, rather
than raises: the fields are empty and the metadata carries the explicit
no-configs-found error marker. -/
theorem auto_config_empty (fname : String) :
    (run_auto_configs [] fname).fields = [] ∧
    dictGet (run_auto_configs [] fname).meta "error"
      = some (MetaV.s "No configs found") :=
  ⟨rfl, rfl⟩
